import Mathlib

/-!
Verification of the EB bill calculator (`eb_bill_calculator.py`).

The program computes a tiered electricity bill: a slab-allocation loop
distributes the consumed units over rate slabs, then surcharges are applied
with Python `round(·, 2)` (round-half-to-even at two decimals) at each
aggregate step.  Python floats are modelled by exact rationals (ℚ); on the
concrete examples checked below every intermediate float value of the script
is exactly representable, so the rational model and the float execution
agree there.
-/

/-- `round(x, 2)`'s integer core: round a rational to the nearest integer,
ties to even (Python's rounding mode). -/
def rhe (x : ℚ) : ℤ :=
  if x - ⌊x⌋ < 1/2 then ⌊x⌋
  else if 1/2 < x - ⌊x⌋ then ⌊x⌋ + 1
  else if ⌊x⌋ % 2 = 0 then ⌊x⌋ else ⌊x⌋ + 1

/-- Python's `round(x, 2)`: round to two decimal places, ties to even. -/
def round2 (x : ℚ) : ℚ := (rhe (100 * x) : ℚ) / 100

/-- A rate slab: `upto` is the upper limit in units (`0` means no upper
limit), `rate` the price per unit.  (`Slab` dataclass of the script.) -/
structure Slab where
  upto : ℤ
  rate : ℚ
deriving DecidableEq

/-- One entry of the `slab_details` list built by `calculate_bill`. -/
structure SlabDetail where
  slab_range : String
  units : ℚ
  rate : ℚ
  charge : ℚ
deriving DecidableEq

/-- The `slab_range` display string: `f"{prev_limit+1}-{upto if upto!=0 else 'above'}"`. -/
def slabRange (prev_limit : ℤ) (upto : ℤ) : String :=
  toString (prev_limit + 1) ++ "-" ++ (if upto = 0 then "above" else toString upto)

/-- The per-slab allocation of the loop body (lines 59-64 of the script):
the unlimited slab takes `max(0, remaining)`, a bounded slab takes
`max(0, min(remaining, slab.upto - prev_limit))`. -/
def unitsInSlab (remaining : ℚ) (prev_limit : ℤ) (slab : Slab) : ℚ :=
  if slab.upto = 0 then max 0 remaining
  else max 0 (min remaining ((slab.upto : ℚ) - (prev_limit : ℚ)))

/-- The `for slab in slabs:` loop of `calculate_bill`, lines 57-77 of the
script: returns the accumulated (unrounded) energy charge and the
`slab_details` list.  The `if remaining <= 0: break` test runs after
`remaining -= units_in_slab`, which the recursion mirrors. -/
def allocLoop (remaining : ℚ) (prev_limit : ℤ) : List Slab → ℚ × List SlabDetail
  | [] => (0, [])
  | slab :: rest =>
    let units_in_slab := unitsInSlab remaining prev_limit slab
    let charge := units_in_slab * slab.rate
    let detail : SlabDetail :=
      ⟨slabRange prev_limit slab.upto, units_in_slab, slab.rate, round2 charge⟩
    if remaining - units_in_slab ≤ 0 then (charge, [detail])
    else
      let res := allocLoop (remaining - units_in_slab) slab.upto rest
      (charge + res.1, detail :: res.2)

/-- The dict returned by `calculate_bill`. -/
structure Bill where
  units : ℚ
  slab_details : List SlabDetail
  energy_charge : ℚ
  fixed_charge : ℚ
  duty_pct : ℚ
  duty : ℚ
  gst_pct : ℚ
  gst : ℚ
  subtotal : ℚ
  total_bill : ℚ
deriving DecidableEq

/-- `calculate_bill(units, slabs, fixed_charge, duty_pct, gst_pct)`
(lines 35-96 of the script), with Python floats modelled by ℚ. -/
def calculate_bill (units : ℚ) (slabs : List Slab)
    (fixed_charge : ℚ) (duty_pct : ℚ) (gst_pct : ℚ) : Bill :=
  let res := allocLoop units 0 slabs
  let energy_charge := round2 res.1
  let duty := round2 (duty_pct / 100 * energy_charge)
  let subtotal := round2 (energy_charge + duty + fixed_charge)
  let gst := round2 (gst_pct / 100 * subtotal)
  let total_bill := round2 (subtotal + gst)
  { units := units
    slab_details := res.2
    energy_charge := energy_charge
    fixed_charge := round2 fixed_charge
    duty_pct := duty_pct
    duty := duty
    gst_pct := gst_pct
    gst := gst
    subtotal := subtotal
    total_bill := total_bill }

/-- The default slab structure of `main` (line 138):
`[Slab(100, 3.0), Slab(200, 4.5), Slab(300, 6.0), Slab(0, 8.0)]`. -/
def defaultSlabs : List Slab := [⟨100, 3⟩, ⟨200, 9/2⟩, ⟨300, 6⟩, ⟨0, 8⟩]

/-- Total units allocated across a `slab_details` list. -/
def sumUnits (ds : List SlabDetail) : ℚ := (ds.map SlabDetail.units).sum

/-- Well-ordered slab list starting above `prev`: upper bounds strictly
increasing, with the unbounded sentinel (`upto = 0`) allowed only in final
position.  This is the shape the script's docstring and `main` construct. -/
def wellOrderedFrom (prev : ℤ) : List Slab → Bool
  | [] => true
  | s :: rest =>
    if s.upto = 0 then rest.isEmpty
    else decide (prev < s.upto) && wellOrderedFrom s.upto rest

/-- Capacity of the `i`-th slab in the sense of the spec: `upto` minus the
previous bound for a bounded slab, and the remaining (still unallocated)
units for the unbounded slab. -/
def slabCapacity (units : ℚ) (slabs : List Slab) (details : List SlabDetail) (i : ℕ) : ℚ :=
  if (slabs.getD i ⟨1, 0⟩).upto = 0 then units - sumUnits (details.take i)
  else ((slabs.getD i ⟨1, 0⟩).upto : ℚ) - (((0 :: slabs.map Slab.upto).getD i 0 : ℤ) : ℚ)

/-! ### Basic facts about the rounding function -/

theorem floor_le_rhe (x : ℚ) : ⌊x⌋ ≤ rhe x := by
  unfold rhe; split_ifs <;> omega

theorem rhe_le_floor_add_one (x : ℚ) : rhe x ≤ ⌊x⌋ + 1 := by
  unfold rhe; split_ifs <;> omega

theorem rhe_mono {x y : ℚ} (h : x ≤ y) : rhe x ≤ rhe y := by
  rcases lt_or_eq_of_le (Int.floor_mono h) with hlt | he
  · calc rhe x ≤ ⌊x⌋ + 1 := rhe_le_floor_add_one x
    _ ≤ ⌊y⌋ := by omega
    _ ≤ rhe y := floor_le_rhe y
  · unfold rhe
    rw [← he]
    have hxy : x - ⌊x⌋ ≤ y - ⌊x⌋ := by linarith
    split_ifs <;> first | omega | linarith

theorem round2_mono {x y : ℚ} (h : x ≤ y) : round2 x ≤ round2 y := by
  unfold round2
  have h1 : rhe (100 * x) ≤ rhe (100 * y) := rhe_mono (by linarith)
  have h2 : ((rhe (100 * x) : ℤ) : ℚ) ≤ ((rhe (100 * y) : ℤ) : ℚ) := by exact_mod_cast h1
  linarith

theorem round2_zero : round2 0 = 0 := by
  norm_num [round2, rhe]

theorem round2_nonneg {x : ℚ} (h : 0 ≤ x) : 0 ≤ round2 x := by
  have := round2_mono h
  rwa [round2_zero] at this

/-! ### Basic facts about the allocation loop -/

theorem unitsInSlab_nonneg (r : ℚ) (p : ℤ) (s : Slab) : 0 ≤ unitsInSlab r p s := by
  unfold unitsInSlab; split_ifs <;> exact le_max_left _ _

theorem unitsInSlab_le {r : ℚ} (h : 0 ≤ r) (p : ℤ) (s : Slab) : unitsInSlab r p s ≤ r := by
  unfold unitsInSlab
  split_ifs
  · exact max_le h le_rfl
  · exact max_le h (min_le_left _ _)

theorem unitsInSlab_mono {r₁ r₂ : ℚ} (h : r₁ ≤ r₂) (p : ℤ) (s : Slab) :
    unitsInSlab r₁ p s ≤ unitsInSlab r₂ p s := by
  unfold unitsInSlab
  split_ifs
  · exact max_le_max le_rfl h
  · exact max_le_max le_rfl (min_le_min h le_rfl)

theorem sub_unitsInSlab_mono {r₁ r₂ : ℚ} (h : r₁ ≤ r₂) (p : ℤ) (s : Slab) :
    r₁ - unitsInSlab r₁ p s ≤ r₂ - unitsInSlab r₂ p s := by
  unfold unitsInSlab
  rcases le_total r₁ 0 with h1 | h1 <;>
    rcases le_total r₂ 0 with h2 | h2 <;>
      rcases le_total r₁ ((s.upto : ℚ) - (p : ℚ)) with h3 | h3 <;>
        rcases le_total r₂ ((s.upto : ℚ) - (p : ℚ)) with h4 | h4 <;>
          split_ifs <;>
            simp [max_def, min_def] <;> split_ifs <;> linarith

theorem allocLoop_cons (r : ℚ) (p : ℤ) (s : Slab) (rest : List Slab) :
    allocLoop r p (s :: rest) =
      if r - unitsInSlab r p s ≤ 0 then
        (unitsInSlab r p s * s.rate,
         [⟨slabRange p s.upto, unitsInSlab r p s, s.rate, round2 (unitsInSlab r p s * s.rate)⟩])
      else
        (unitsInSlab r p s * s.rate + (allocLoop (r - unitsInSlab r p s) s.upto rest).1,
         ⟨slabRange p s.upto, unitsInSlab r p s, s.rate, round2 (unitsInSlab r p s * s.rate)⟩ ::
           (allocLoop (r - unitsInSlab r p s) s.upto rest).2) := rfl

theorem allocLoop_length (slabs : List Slab) :
    ∀ (r : ℚ) (p : ℤ), (allocLoop r p slabs).2.length ≤ slabs.length := by
  induction slabs with
  | nil => intro r p; simp [allocLoop]
  | cons s rest ih =>
    intro r p
    simp only [allocLoop]
    split_ifs
    · simp
    · simpa using ih (r - unitsInSlab r p s) s.upto

theorem allocLoop_fst_nonneg (slabs : List Slab) :
    ∀ (r : ℚ) (p : ℤ), (∀ s ∈ slabs, 0 ≤ s.rate) → 0 ≤ (allocLoop r p slabs).1 := by
  induction slabs with
  | nil => intro r p _; simp [allocLoop]
  | cons s rest ih =>
    intro r p h
    have hs : 0 ≤ s.rate := h s (by simp)
    have hrest : ∀ t ∈ rest, 0 ≤ t.rate := fun t ht => h t (by simp [ht])
    have hu : 0 ≤ unitsInSlab r p s := unitsInSlab_nonneg r p s
    simp only [allocLoop]
    split_ifs
    · exact mul_nonneg hu hs
    · exact add_nonneg (mul_nonneg hu hs) (ih (r - unitsInSlab r p s) s.upto hrest)

theorem allocLoop_fst_mono (slabs : List Slab) :
    ∀ (r₁ r₂ : ℚ) (p : ℤ), (∀ s ∈ slabs, 0 ≤ s.rate) → r₁ ≤ r₂ →
      (allocLoop r₁ p slabs).1 ≤ (allocLoop r₂ p slabs).1 := by
  induction slabs with
  | nil => intro r₁ r₂ p _ _; simp [allocLoop]
  | cons s rest ih =>
    intro r₁ r₂ p h hr
    have hs : 0 ≤ s.rate := h s (by simp)
    have hrest : ∀ t ∈ rest, 0 ≤ t.rate := fun t ht => h t (by simp [ht])
    have hu : unitsInSlab r₁ p s ≤ unitsInSlab r₂ p s := unitsInSlab_mono hr p s
    have hrem : r₁ - unitsInSlab r₁ p s ≤ r₂ - unitsInSlab r₂ p s :=
      sub_unitsInSlab_mono hr p s
    have hcharge : unitsInSlab r₁ p s * s.rate ≤ unitsInSlab r₂ p s * s.rate :=
      mul_le_mul_of_nonneg_right hu hs
    simp only [allocLoop]
    split_ifs with h1 h2 h3
    · exact hcharge
    · have hE : 0 ≤ (allocLoop (r₂ - unitsInSlab r₂ p s) s.upto rest).1 :=
        allocLoop_fst_nonneg rest _ _ hrest
      dsimp only
      linarith
    · exact absurd (le_trans hrem h3) h1
    · have := ih (r₁ - unitsInSlab r₁ p s) (r₂ - unitsInSlab r₂ p s) s.upto hrest hrem
      dsimp only
      linarith

theorem allocLoop_append_unbounded (s : Slab) (hs : s.upto = 0) (post : List Slab) :
    ∀ (pre : List Slab) (r : ℚ) (p : ℤ),
      allocLoop r p (pre ++ s :: post) = allocLoop r p (pre ++ [s]) := by
  intro pre
  induction pre with
  | nil =>
    intro r p
    have hbreak : r - unitsInSlab r p s ≤ 0 := by
      have : r ≤ unitsInSlab r p s := by
        unfold unitsInSlab; rw [if_pos hs]; exact le_max_right 0 r
      linarith
    simp only [List.nil_append, allocLoop]
    rw [if_pos hbreak, if_pos hbreak]
  | cons a pre ih =>
    intro r p
    simp only [List.cons_append, allocLoop, List.append_eq]
    split_ifs
    · rfl
    · rw [ih]

theorem sumUnits_nil : sumUnits [] = 0 := rfl

theorem sumUnits_cons (d : SlabDetail) (ds : List SlabDetail) :
    sumUnits (d :: ds) = d.units + sumUnits ds := by
  simp [sumUnits]

theorem allocLoop_sum_unbounded (s : Slab) (hs : s.upto = 0) :
    ∀ (pre : List Slab) (r : ℚ) (p : ℤ), 0 ≤ r →
      sumUnits (allocLoop r p (pre ++ [s])).2 = r := by
  intro pre
  induction pre with
  | nil =>
    intro r p hr
    have hu : unitsInSlab r p s = r := by
      unfold unitsInSlab; rw [if_pos hs]; exact max_eq_right hr
    have hbreak : r - unitsInSlab r p s ≤ 0 := by rw [hu]; linarith
    simp only [List.nil_append, allocLoop]
    rw [if_pos hbreak]
    simp [sumUnits, hu]
  | cons a pre ih =>
    intro r p hr
    have hu0 : 0 ≤ unitsInSlab r p a := unitsInSlab_nonneg r p a
    have hur : unitsInSlab r p a ≤ r := unitsInSlab_le hr p a
    simp only [List.cons_append, allocLoop, List.append_eq]
    split_ifs with h1
    · have heq : unitsInSlab r p a = r := le_antisymm hur (by linarith)
      simp [sumUnits, heq]
    · have hrec := ih (r - unitsInSlab r p a) a.upto (by linarith)
      rw [sumUnits_cons]
      dsimp only
      linarith [hrec]

theorem allocLoop_nonpos {r : ℚ} (hr : r ≤ 0) (p : ℤ) (s : Slab) (rest : List Slab) :
    allocLoop r p (s :: rest) = (0, [⟨slabRange p s.upto, 0, s.rate, 0⟩]) := by
  have hu : unitsInSlab r p s = 0 := by
    unfold unitsInSlab
    split_ifs
    · exact max_eq_left hr
    · exact max_eq_left (le_trans (min_le_left _ _) hr)
  simp only [allocLoop, hu]
  rw [if_pos (by linarith)]
  simp [round2_zero]

theorem chain_lt_getLast :
    ∀ (l : List ℤ) (x y : ℤ), List.Chain (· < ·) x l → l.getLast? = some y → x < y := by
  intro l
  induction l with
  | nil => intro x y _ hl; simp at hl
  | cons a rest ih =>
    intro x y hc hl
    rcases List.chain_cons.mp hc with ⟨hxa, hrest⟩
    cases rest with
    | nil =>
      simp only [List.getLast?_singleton, Option.some.injEq] at hl
      omega
    | cons b r2 =>
      rw [List.getLast?_cons_cons] at hl
      exact lt_trans hxa (ih a y hrest hl)

theorem getLast?_map_upto :
    ∀ (l : List Slab) (s : Slab), l.getLast? = some s → (l.map Slab.upto).getLast? = some s.upto := by
  intro l
  induction l with
  | nil => intro s h; simp at h
  | cons a rest ih =>
    intro s h
    cases rest with
    | nil =>
      simp only [List.getLast?_singleton, Option.some.injEq] at h
      simp [h]
    | cons b r2 =>
      rw [List.getLast?_cons_cons] at h
      simpa only [List.map_cons, List.getLast?_cons_cons] using ih s h

theorem allocLoop_eq_of_capacity_le (s : Slab) :
    ∀ (slabs : List Slab) (p : ℤ) (r₁ r₂ : ℚ),
      slabs.getLast? = some s →
      List.Chain (· < ·) p (slabs.map Slab.upto) →
      0 ≤ p →
      ((s.upto : ℚ) - (p : ℚ)) ≤ r₁ → ((s.upto : ℚ) - (p : ℚ)) ≤ r₂ →
      allocLoop r₁ p slabs = allocLoop r₂ p slabs := by
  intro slabs
  induction slabs with
  | nil => intro p r₁ r₂ hl; simp at hl
  | cons a rest ih =>
    intro p r₁ r₂ hl hc hp h1 h2
    rcases List.chain_cons.mp (by simpa using hc) with ⟨hpa, hrest⟩
    have ha0 : ¬ a.upto = 0 := by omega
    have hcap : (0:ℚ) ≤ (a.upto : ℚ) - (p : ℚ) := by
      have : (p:ℚ) < (a.upto:ℚ) := by exact_mod_cast hpa
      linarith
    cases rest with
    | nil =>
      have heq : a = s := by
        simpa only [List.getLast?_singleton, Option.some.injEq] using hl
      rw [← heq] at h1 h2
      have hu1 : unitsInSlab r₁ p a = (a.upto : ℚ) - (p : ℚ) := by
        unfold unitsInSlab
        rw [if_neg ha0, min_eq_right h1, max_eq_right hcap]
      have hu2 : unitsInSlab r₂ p a = (a.upto : ℚ) - (p : ℚ) := by
        unfold unitsInSlab
        rw [if_neg ha0, min_eq_right h2, max_eq_right hcap]
      simp only [allocLoop, hu1, hu2]
      split_ifs <;> simp [allocLoop]
    | cons b r2 =>
      have hlast : (b :: r2 : List Slab).getLast? = some s := by
        rw [List.getLast?_cons_cons] at hl; exact hl
      have haslt : a.upto < s.upto := by
        refine chain_lt_getLast ((b :: r2).map Slab.upto) a.upto s.upto hrest ?_
        exact getLast?_map_upto _ s hlast
      have hasltQ : (a.upto : ℚ) < (s.upto : ℚ) := by exact_mod_cast haslt
      have hcap1 : (a.upto : ℚ) - (p : ℚ) ≤ r₁ := by linarith
      have hcap2 : (a.upto : ℚ) - (p : ℚ) ≤ r₂ := by linarith
      have hu1 : unitsInSlab r₁ p a = (a.upto : ℚ) - (p : ℚ) := by
        unfold unitsInSlab
        rw [if_neg ha0, min_eq_right hcap1, max_eq_right hcap]
      have hu2 : unitsInSlab r₂ p a = (a.upto : ℚ) - (p : ℚ) := by
        unfold unitsInSlab
        rw [if_neg ha0, min_eq_right hcap2, max_eq_right hcap]
      have hnb1 : ¬ (r₁ - ((a.upto : ℚ) - (p : ℚ)) ≤ 0) := by push_neg; linarith
      have hnb2 : ¬ (r₂ - ((a.upto : ℚ) - (p : ℚ)) ≤ 0) := by push_neg; linarith
      have hrec := ih a.upto (r₁ - unitsInSlab r₁ p a) (r₂ - unitsInSlab r₂ p a)
        hlast hrest (by omega) (by rw [hu1]; linarith) (by rw [hu2]; linarith)
      rw [hu1, hu2] at hrec
      rw [allocLoop_cons r₁ p a (b :: r2), allocLoop_cons r₂ p a (b :: r2),
        hu1, hu2, if_neg hnb1, if_neg hnb2, hrec]

theorem allocLoop_sum_of_capacity_le (s : Slab) :
    ∀ (slabs : List Slab) (p : ℤ) (r : ℚ),
      slabs.getLast? = some s →
      List.Chain (· < ·) p (slabs.map Slab.upto) →
      0 ≤ p →
      ((s.upto : ℚ) - (p : ℚ)) ≤ r →
      sumUnits (allocLoop r p slabs).2 = (s.upto : ℚ) - (p : ℚ) := by
  intro slabs
  induction slabs with
  | nil => intro p r hl; simp at hl
  | cons a rest ih =>
    intro p r hl hc hp h1
    rcases List.chain_cons.mp (by simpa using hc) with ⟨hpa, hrest⟩
    have ha0 : ¬ a.upto = 0 := by omega
    have hcap : (0:ℚ) ≤ (a.upto : ℚ) - (p : ℚ) := by
      have : (p:ℚ) < (a.upto:ℚ) := by exact_mod_cast hpa
      linarith
    cases rest with
    | nil =>
      have heq : a = s := by
        simpa only [List.getLast?_singleton, Option.some.injEq] using hl
      rw [← heq] at h1 ⊢
      have hu1 : unitsInSlab r p a = (a.upto : ℚ) - (p : ℚ) := by
        unfold unitsInSlab
        rw [if_neg ha0, min_eq_right h1, max_eq_right hcap]
      simp only [allocLoop, hu1]
      split_ifs <;> simp [allocLoop, sumUnits]
    | cons b r2 =>
      have hlast : (b :: r2 : List Slab).getLast? = some s := by
        rw [List.getLast?_cons_cons] at hl; exact hl
      have haslt : a.upto < s.upto := by
        refine chain_lt_getLast ((b :: r2).map Slab.upto) a.upto s.upto hrest ?_
        exact getLast?_map_upto _ s hlast
      have hasltQ : (a.upto : ℚ) < (s.upto : ℚ) := by exact_mod_cast haslt
      have hcap1 : (a.upto : ℚ) - (p : ℚ) ≤ r := by linarith
      have hu1 : unitsInSlab r p a = (a.upto : ℚ) - (p : ℚ) := by
        unfold unitsInSlab
        rw [if_neg ha0, min_eq_right hcap1, max_eq_right hcap]
      have hnb1 : ¬ (r - ((a.upto : ℚ) - (p : ℚ)) ≤ 0) := by push_neg; linarith
      have hrec := ih a.upto (r - unitsInSlab r p a)
        hlast hrest (by omega) (by rw [hu1]; linarith)
      rw [hu1] at hrec
      rw [allocLoop_cons r p a (b :: r2), hu1, if_neg hnb1]
      dsimp only
      rw [sumUnits_cons]
      dsimp only
      rw [hrec]
      ring

theorem list_getD_irrel {α : Type} :
    ∀ (l : List α) (i : ℕ) (d₁ d₂ : α), i < l.length → l.getD i d₁ = l.getD i d₂ := by
  intro l
  induction l with
  | nil => intro i d₁ d₂ h; simp at h
  | cons a t ih =>
    intro i d₁ d₂ h
    cases i with
    | zero => simp
    | succ j => simpa using ih j d₁ d₂ (by simpa using h)

theorem allocLoop_within_capacity (slabs : List Slab) :
    ∀ (r : ℚ) (p : ℤ), 0 ≤ r → wellOrderedFrom p slabs = true →
      ∀ i, i < (allocLoop r p slabs).2.length →
        0 ≤ ((allocLoop r p slabs).2.getD i ⟨"", 0, 0, 0⟩).units ∧
        ((allocLoop r p slabs).2.getD i ⟨"", 0, 0, 0⟩).units ≤
          (if (slabs.getD i ⟨1, 0⟩).upto = 0
           then r - sumUnits ((allocLoop r p slabs).2.take i)
           else ((slabs.getD i ⟨1, 0⟩).upto : ℚ) - (((p :: slabs.map Slab.upto).getD i p : ℤ) : ℚ)) := by
  induction slabs with
  | nil => intro r p _ _ i hi; simp [allocLoop] at hi
  | cons s rest ih =>
    intro r p hr hw i hi
    by_cases hs : s.upto = 0
    · have hu : unitsInSlab r p s = r := by
        unfold unitsInSlab; rw [if_pos hs]; exact max_eq_right hr
      have hbr : r - unitsInSlab r p s ≤ 0 := by rw [hu]; linarith
      have hi0 : i = 0 := by
        rw [allocLoop_cons, if_pos hbr] at hi
        simpa using Nat.lt_one_iff.mp (by simpa using hi)
      subst hi0
      rw [allocLoop_cons, if_pos hbr]
      constructor
      · simpa [hu] using hr
      · simp [hs, hu, sumUnits]
    · have hw' : (decide (p < s.upto) && wellOrderedFrom s.upto rest) = true := by
        unfold wellOrderedFrom at hw
        rwa [if_neg hs] at hw
      rw [Bool.and_eq_true] at hw'
      obtain ⟨hps, hwrest⟩ := hw'
      have hps' : p < s.upto := of_decide_eq_true hps
      have hcapQ : (0:ℚ) ≤ (s.upto:ℚ) - (p:ℚ) := by
        have : (p:ℚ) < (s.upto:ℚ) := by exact_mod_cast hps'
        linarith
      have hu0 : 0 ≤ unitsInSlab r p s := unitsInSlab_nonneg r p s
      have hucap : unitsInSlab r p s ≤ (s.upto:ℚ) - (p:ℚ) := by
        unfold unitsInSlab
        rw [if_neg hs]
        exact max_le hcapQ (min_le_right _ _)
      by_cases hbr : r - unitsInSlab r p s ≤ 0
      · have hi0 : i = 0 := by
          rw [allocLoop_cons, if_pos hbr] at hi
          simpa using Nat.lt_one_iff.mp (by simpa using hi)
        subst hi0
        rw [allocLoop_cons, if_pos hbr]
        constructor
        · simpa using hu0
        · simpa [hs] using hucap
      · cases i with
        | zero =>
          rw [allocLoop_cons, if_neg hbr]
          constructor
          · simpa using hu0
          · simpa [hs] using hucap
        | succ j =>
          have hr' : 0 ≤ r - unitsInSlab r p s := by push_neg at hbr; linarith
          have hj : j < (allocLoop (r - unitsInSlab r p s) s.upto rest).2.length := by
            rw [allocLoop_cons, if_neg hbr] at hi
            simpa using hi
          have hjrest : j < rest.length :=
            lt_of_lt_of_le hj (allocLoop_length rest _ _)
          have IH := ih (r - unitsInSlab r p s) s.upto hr' hwrest j hj
          rw [allocLoop_cons, if_neg hbr]
          dsimp only
          rw [List.getD_cons_succ, List.getD_cons_succ, List.take_succ_cons, sumUnits_cons]
          dsimp only
          constructor
          · exact IH.1
          · have IH2 := IH.2
            by_cases hcond : (rest.getD j ⟨1, 0⟩).upto = 0
            · rw [if_pos hcond] at IH2 ⊢
              linarith
            · rw [if_neg hcond] at IH2 ⊢
              have hdflt : (s.upto :: rest.map Slab.upto).getD j p
                  = (s.upto :: rest.map Slab.upto).getD j s.upto :=
                list_getD_irrel _ j p s.upto (by simpa using Nat.lt_succ_of_lt hjrest)
              rw [List.getD_cons_succ, List.map_cons, hdflt]
              exact IH2

theorem allocLoop_nonpos_eq {r : ℚ} (hr : r ≤ 0) (p : ℤ) (slabs : List Slab) :
    allocLoop r p slabs = allocLoop 0 p slabs := by
  cases slabs with
  | nil => rfl
  | cons s rest => rw [allocLoop_nonpos hr, allocLoop_nonpos le_rfl]

theorem calculate_bill_slab_details (units f d g : ℚ) (slabs : List Slab) :
    (calculate_bill units slabs f d g).slab_details = (allocLoop units 0 slabs).2 := rfl

theorem calculate_bill_energy_charge (units f d g : ℚ) (slabs : List Slab) :
    (calculate_bill units slabs f d g).energy_charge = round2 (allocLoop units 0 slabs).1 := rfl

theorem calculate_bill_duty (units f d g : ℚ) (slabs : List Slab) :
    (calculate_bill units slabs f d g).duty
      = round2 (d / 100 * (calculate_bill units slabs f d g).energy_charge) := rfl

theorem calculate_bill_subtotal (units f d g : ℚ) (slabs : List Slab) :
    (calculate_bill units slabs f d g).subtotal
      = round2 ((calculate_bill units slabs f d g).energy_charge
          + (calculate_bill units slabs f d g).duty + f) := rfl

theorem calculate_bill_gst (units f d g : ℚ) (slabs : List Slab) :
    (calculate_bill units slabs f d g).gst
      = round2 (g / 100 * (calculate_bill units slabs f d g).subtotal) := rfl

theorem calculate_bill_total_bill (units f d g : ℚ) (slabs : List Slab) :
    (calculate_bill units slabs f d g).total_bill
      = round2 ((calculate_bill units slabs f d g).subtotal
          + (calculate_bill units slabs f d g).gst) := rfl

/-! ### The claims -/

/-- C1: for every non-negative consumption `units` and every slab list whose
final slab is the unbounded sentinel (`upto = 0`), `calculate_bill`
allocates quantities to slabs whose sum equals `units` exactly — no units
lost or double-counted. -/
theorem calculate_bill_allocates_all_units (units f d g : ℚ) (slabs : List Slab) (s : Slab)
    (h0 : 0 ≤ units) (hlast : slabs.getLast? = some s) (hs : s.upto = 0) :
    sumUnits (calculate_bill units slabs f d g).slab_details = units := by
  have hne : slabs ≠ [] := by rintro rfl; simp at hlast
  have hgl : slabs.getLast hne = s := by
    rw [List.getLast?_eq_getLast slabs hne, Option.some.injEq] at hlast
    exact hlast
  have hsplit : slabs.dropLast ++ [s] = slabs := by
    rw [← hgl]
    exact List.dropLast_append_getLast hne
  rw [calculate_bill_slab_details, ← hsplit]
  exact allocLoop_sum_unbounded s hs slabs.dropLast units 0 h0

/-- C1 witness: with the default slabs (last slab unbounded) and 250 units,
the per-slab allocations sum to 250. -/
theorem calculate_bill_allocates_all_units_witness :
    (0:ℚ) ≤ 250 ∧ defaultSlabs.getLast? = some ⟨0, 8⟩ ∧ (Slab.mk 0 8).upto = 0 ∧
    sumUnits (calculate_bill 250 defaultSlabs 50 5 5).slab_details = 250 :=
  ⟨by norm_num, rfl, rfl,
    calculate_bill_allocates_all_units 250 50 5 5 defaultSlabs ⟨0, 8⟩ (by norm_num) rfl rfl⟩

/-- C2: `calculate_bill` computes the surcharges by the exact step sequence
(energy charge rounded to 2 decimals, then duty, subtotal, GST and total,
each rounded independently), and this stepwise rounding differs from
rounding once at the end (witnessed by a concrete input). -/
theorem calculate_bill_rounding_pipeline :
    (∀ (units f d g : ℚ) (slabs : List Slab),
      (calculate_bill units slabs f d g).energy_charge = round2 (allocLoop units 0 slabs).1 ∧
      (calculate_bill units slabs f d g).duty
        = round2 (d / 100 * (calculate_bill units slabs f d g).energy_charge) ∧
      (calculate_bill units slabs f d g).subtotal
        = round2 ((calculate_bill units slabs f d g).energy_charge
            + (calculate_bill units slabs f d g).duty + f) ∧
      (calculate_bill units slabs f d g).gst
        = round2 (g / 100 * (calculate_bill units slabs f d g).subtotal) ∧
      (calculate_bill units slabs f d g).total_bill
        = round2 ((calculate_bill units slabs f d g).subtotal
            + (calculate_bill units slabs f d g).gst)) ∧
    (calculate_bill 1 [⟨0, 149/10000⟩] 0 100 0).total_bill
      ≠ round2 ((allocLoop 1 0 [⟨0, 149/10000⟩]).1
          + 100 / 100 * (allocLoop 1 0 [⟨0, 149/10000⟩]).1 + 0
          + 0 / 100 * ((allocLoop 1 0 [⟨0, 149/10000⟩]).1
              + 100 / 100 * (allocLoop 1 0 [⟨0, 149/10000⟩]).1 + 0)) := by
  constructor
  · intro units f d g slabs
    exact ⟨rfl, rfl, rfl, rfl, rfl⟩
  · norm_num [calculate_bill, allocLoop, unitsInSlab, round2, rhe]

/-- C3: for a strictly increasing, all-bounded slab list whose total
capacity (the last upper bound) is less than `units`, `calculate_bill`
silently drops the excess: only the capacity is allocated and the energy
charge is the same as if exactly the capacity had been consumed. -/
theorem calculate_bill_drops_excess (units f d g : ℚ) (slabs : List Slab) (s : Slab)
    (hlast : slabs.getLast? = some s)
    (hchain : List.Chain (· < ·) 0 (slabs.map Slab.upto))
    (hcap : (s.upto : ℚ) < units) :
    sumUnits (calculate_bill units slabs f d g).slab_details = (s.upto : ℚ) ∧
    (calculate_bill units slabs f d g).energy_charge
      = (calculate_bill (s.upto : ℚ) slabs f d g).energy_charge := by
  have h1 : ((s.upto:ℚ) - ((0:ℤ):ℚ)) ≤ units := by push_cast; linarith
  have h2 : ((s.upto:ℚ) - ((0:ℤ):ℚ)) ≤ (s.upto:ℚ) := by push_cast; linarith
  have hsum := allocLoop_sum_of_capacity_le s slabs 0 units hlast hchain le_rfl h1
  have heq := allocLoop_eq_of_capacity_le s slabs 0 units (s.upto:ℚ) hlast hchain le_rfl h1 h2
  constructor
  · rw [calculate_bill_slab_details, hsum]
    push_cast
    ring
  · rw [calculate_bill_energy_charge, calculate_bill_energy_charge, heq]

/-- C3 witness: slabs `[(100, 3), (200, 4.5)]` with 500 units allocate
exactly 200 units and charge as if 200 units were consumed. -/
theorem calculate_bill_drops_excess_witness :
    ([⟨100, 3⟩, ⟨200, 9/2⟩] : List Slab).getLast? = some ⟨200, 9/2⟩ ∧
    List.Chain (· < ·) 0 (([⟨100, 3⟩, ⟨200, 9/2⟩] : List Slab).map Slab.upto) ∧
    ((Slab.mk 200 (9/2)).upto : ℚ) < 500 ∧
    (sumUnits (calculate_bill 500 [⟨100, 3⟩, ⟨200, 9/2⟩] 50 5 5).slab_details
        = ((Slab.mk 200 (9/2)).upto : ℚ) ∧
      (calculate_bill 500 [⟨100, 3⟩, ⟨200, 9/2⟩] 50 5 5).energy_charge
        = (calculate_bill ((Slab.mk 200 (9/2)).upto : ℚ) [⟨100, 3⟩, ⟨200, 9/2⟩] 50 5 5).energy_charge) :=
  ⟨rfl, by norm_num [List.chain_cons], by norm_num,
    calculate_bill_drops_excess 500 50 5 5 [⟨100, 3⟩, ⟨200, 9/2⟩] ⟨200, 9/2⟩ rfl
      (by norm_num [List.chain_cons]) (by norm_num)⟩

/-- C4 counterexample: with `units = 0` and fixed charge 10.005 the claim
fails — the subtotal is `round(10.005, 2) = 10.00`, not the fixed charge,
and the total is 10.50, not `fixed_charge × 1.05 = 10.50525`. -/
theorem calculate_bill_zero_units_subtotal_ne_fixed :
    (calculate_bill 0 defaultSlabs (2001/200) 5 5).subtotal ≠ 2001/200 ∧
    (calculate_bill 0 defaultSlabs (2001/200) 5 5).total_bill ≠ 2001/200 * (105/100) := by
  norm_num [calculate_bill, allocLoop, unitsInSlab, defaultSlabs, round2, rhe]

/-- C4 (amended): for `units = 0` every allocation is 0, the energy charge
and duty are 0, the subtotal is `round(fixed_charge, 2)` (hence equal to the
fixed charge whenever it is an exact 2-decimal amount), GST is computed on
that subtotal, and at the defaults (fixed 50, GST 5%) the total is
`52.50 = 50 × 1.05`. -/
theorem calculate_bill_zero_units (f d g : ℚ) (slabs : List Slab) :
    ((calculate_bill 0 slabs f d g).slab_details.map SlabDetail.units
        = List.replicate (calculate_bill 0 slabs f d g).slab_details.length 0) ∧
    (calculate_bill 0 slabs f d g).energy_charge = 0 ∧
    (calculate_bill 0 slabs f d g).duty = 0 ∧
    (calculate_bill 0 slabs f d g).subtotal = round2 f ∧
    (calculate_bill 0 slabs f d g).gst = round2 (g / 100 * round2 f) ∧
    (calculate_bill 0 slabs f d g).total_bill
      = round2 (round2 f + round2 (g / 100 * round2 f)) ∧
    (calculate_bill 0 defaultSlabs 50 5 5).total_bill = 50 * (105/100) := by
  have h1 : (allocLoop 0 0 slabs).1 = 0 := by
    cases slabs with
    | nil => rfl
    | cons s rest => rw [allocLoop_nonpos le_rfl]
  have hec : (calculate_bill 0 slabs f d g).energy_charge = 0 := by
    rw [calculate_bill_energy_charge, h1, round2_zero]
  have hduty : (calculate_bill 0 slabs f d g).duty = 0 := by
    rw [calculate_bill_duty, hec, mul_zero, round2_zero]
  have hsub : (calculate_bill 0 slabs f d g).subtotal = round2 f := by
    rw [calculate_bill_subtotal, hec, hduty, zero_add, zero_add]
  have hgst : (calculate_bill 0 slabs f d g).gst = round2 (g / 100 * round2 f) := by
    rw [calculate_bill_gst, hsub]
  refine ⟨?_, hec, hduty, hsub, hgst, ?_, ?_⟩
  · rw [calculate_bill_slab_details]
    cases slabs with
    | nil => rfl
    | cons s rest =>
      rw [allocLoop_nonpos le_rfl]
      rfl
  · rw [calculate_bill_total_bill, hsub, hgst]
  · norm_num [calculate_bill, allocLoop, unitsInSlab, defaultSlabs, round2, rhe]

/-- C5 counterexample: `calculate_bill` happily computes a result for the
invalid input `units = -5` (total 52.50, the same bill as for zero
consumption) instead of reporting any error. -/
theorem calculate_bill_negative_units_computes :
    (calculate_bill (-5) defaultSlabs 50 5 5).total_bill = 525/10 := by
  norm_num [calculate_bill, allocLoop, unitsInSlab, defaultSlabs, round2, rhe]

/-- C5 (amended): `calculate_bill` performs no input validation at all.  In
particular, for any non-positive consumption it returns exactly the bill it
would return for zero consumption (only echoing the given `units` back),
rather than rejecting the input. -/
theorem calculate_bill_no_validation (units f d g : ℚ) (slabs : List Slab)
    (h : units ≤ 0) :
    calculate_bill units slabs f d g
      = { calculate_bill 0 slabs f d g with units := units } := by
  have halloc : allocLoop units 0 slabs = allocLoop 0 0 slabs := allocLoop_nonpos_eq h 0 slabs
  unfold calculate_bill
  rw [halloc]

/-- C5 witness: the amended statement at `units = -5` with the default
parameters. -/
theorem calculate_bill_no_validation_witness :
    ((-5 : ℚ) ≤ 0) ∧
    calculate_bill (-5) defaultSlabs 50 5 5
      = { calculate_bill 0 defaultSlabs 50 5 5 with units := -5 } :=
  ⟨by norm_num, calculate_bill_no_validation (-5) 50 5 5 defaultSlabs (by norm_num)⟩

/-- C6 counterexample: for 250 units with the default parameters the GST is
not 57.63 and the total is not 1210.13: Python's `round` is half-to-even,
and the GST step rounds the exact tie 57.625 down to 57.62. -/
theorem calculate_bill_example2_not_spec_values :
    (calculate_bill 250 defaultSlabs 50 5 5).gst ≠ 5763/100 ∧
    (calculate_bill 250 defaultSlabs 50 5 5).total_bill ≠ 121013/100 := by
  norm_num [calculate_bill, allocLoop, unitsInSlab, defaultSlabs, round2, rhe]

/-- C6 (amended): for 250 units with the default slabs, fixed charge 50,
duty 5% and GST 5%, the bill is: energy charge 1050.00, duty 52.50,
subtotal 1152.50, GST 57.62 (the tie 57.625 rounds to even), and total
1210.12.  (The IEEE-754 execution of the script produces these same
values: every intermediate float here is exactly representable.) -/
theorem calculate_bill_example2_values :
    (calculate_bill 250 defaultSlabs 50 5 5).energy_charge = 1050 ∧
    (calculate_bill 250 defaultSlabs 50 5 5).duty = 105/2 ∧
    (calculate_bill 250 defaultSlabs 50 5 5).subtotal = 2305/2 ∧
    (calculate_bill 250 defaultSlabs 50 5 5).gst = 5762/100 ∧
    (calculate_bill 250 defaultSlabs 50 5 5).total_bill = 121012/100 := by
  norm_num [calculate_bill, allocLoop, unitsInSlab, defaultSlabs, round2, rhe]

/-- C7 counterexample: with a (never validated) negative rate the total is
not monotone in the consumed units: for slabs `[(0, -1)]` the total for 1
unit is smaller than the total for 0 units. -/
theorem calculate_bill_not_mono_for_negative_rate :
    (calculate_bill 1 [⟨0, -1⟩] 0 0 0).total_bill
      < (calculate_bill 0 [⟨0, -1⟩] 0 0 0).total_bill := by
  norm_num [calculate_bill, allocLoop, unitsInSlab, round2, rhe]

/-- C7 (amended): monotonicity holds for non-negative rates and surcharge
percentages: holding the slab list, fixed charge, duty and GST percentages
fixed, `0 ≤ u₁ ≤ u₂` implies the total payable for `u₁` is at most the
total payable for `u₂`. -/
theorem calculate_bill_total_mono (slabs : List Slab) (f d g u₁ u₂ : ℚ)
    (hrates : ∀ s ∈ slabs, 0 ≤ s.rate) (hd : 0 ≤ d) (hg : 0 ≤ g)
    (_h0 : 0 ≤ u₁) (h12 : u₁ ≤ u₂) :
    (calculate_bill u₁ slabs f d g).total_bill
      ≤ (calculate_bill u₂ slabs f d g).total_bill := by
  have hd' : (0:ℚ) ≤ d / 100 := by positivity
  have hg' : (0:ℚ) ≤ g / 100 := by positivity
  have hE : (allocLoop u₁ 0 slabs).1 ≤ (allocLoop u₂ 0 slabs).1 :=
    allocLoop_fst_mono slabs u₁ u₂ 0 hrates h12
  have hec : (calculate_bill u₁ slabs f d g).energy_charge
      ≤ (calculate_bill u₂ slabs f d g).energy_charge := by
    rw [calculate_bill_energy_charge, calculate_bill_energy_charge]
    exact round2_mono hE
  have hduty : (calculate_bill u₁ slabs f d g).duty
      ≤ (calculate_bill u₂ slabs f d g).duty := by
    rw [calculate_bill_duty, calculate_bill_duty]
    exact round2_mono (mul_le_mul_of_nonneg_left hec hd')
  have hsub : (calculate_bill u₁ slabs f d g).subtotal
      ≤ (calculate_bill u₂ slabs f d g).subtotal := by
    rw [calculate_bill_subtotal, calculate_bill_subtotal]
    exact round2_mono (by linarith)
  have hgst : (calculate_bill u₁ slabs f d g).gst
      ≤ (calculate_bill u₂ slabs f d g).gst := by
    rw [calculate_bill_gst, calculate_bill_gst]
    exact round2_mono (mul_le_mul_of_nonneg_left hsub hg')
  rw [calculate_bill_total_bill, calculate_bill_total_bill]
  exact round2_mono (add_le_add hsub hgst)

/-- C7 witness: with the default parameters the total for 100 units is at
most the total for 250 units. -/
theorem calculate_bill_total_mono_witness :
    (∀ s ∈ defaultSlabs, 0 ≤ s.rate) ∧ (0:ℚ) ≤ 5 ∧ (0:ℚ) ≤ 100 ∧ (100:ℚ) ≤ 250 ∧
    (calculate_bill 100 defaultSlabs 50 5 5).total_bill
      ≤ (calculate_bill 250 defaultSlabs 50 5 5).total_bill :=
  ⟨by norm_num [defaultSlabs], by norm_num, by norm_num, by norm_num,
    calculate_bill_total_mono defaultSlabs 50 5 5 100 250
      (by norm_num [defaultSlabs]) (by norm_num) (by norm_num) (by norm_num) (by norm_num)⟩

/-- C8: for non-negative `units` and a well-ordered slab list, every
per-slab allocated quantity recorded by `calculate_bill` lies within
`[0, capacity]`, where the capacity of a bounded slab is its `upto` minus
the previous bound and the capacity of the unbounded slab is the remaining
units. -/
theorem calculate_bill_alloc_within_capacity (units f d g : ℚ) (slabs : List Slab)
    (h0 : 0 ≤ units) (hw : wellOrderedFrom 0 slabs = true) :
    ∀ i, i < (calculate_bill units slabs f d g).slab_details.length →
      0 ≤ ((calculate_bill units slabs f d g).slab_details.getD i ⟨"", 0, 0, 0⟩).units ∧
      ((calculate_bill units slabs f d g).slab_details.getD i ⟨"", 0, 0, 0⟩).units
        ≤ slabCapacity units slabs (calculate_bill units slabs f d g).slab_details i := by
  intro i hi
  rw [calculate_bill_slab_details] at hi ⊢
  unfold slabCapacity
  exact allocLoop_within_capacity slabs units 0 h0 hw i hi

/-- C8 witness: the third record for 250 units over the default slabs
(allocation 50) lies within the third slab's capacity 100. -/
theorem calculate_bill_alloc_within_capacity_witness :
    (0:ℚ) ≤ 250 ∧ wellOrderedFrom 0 defaultSlabs = true ∧
    2 < (calculate_bill 250 defaultSlabs 50 5 5).slab_details.length ∧
    (0 ≤ ((calculate_bill 250 defaultSlabs 50 5 5).slab_details.getD 2 ⟨"", 0, 0, 0⟩).units ∧
      ((calculate_bill 250 defaultSlabs 50 5 5).slab_details.getD 2 ⟨"", 0, 0, 0⟩).units
        ≤ slabCapacity 250 defaultSlabs
            (calculate_bill 250 defaultSlabs 50 5 5).slab_details 2) :=
  ⟨by norm_num, by rfl,
    by norm_num [calculate_bill, allocLoop, unitsInSlab, defaultSlabs, round2, rhe],
    calculate_bill_alloc_within_capacity 250 50 5 5 defaultSlabs (by norm_num) (by rfl) 2
      (by norm_num [calculate_bill, allocLoop, unitsInSlab, defaultSlabs, round2, rhe])⟩

/-- C9: if a slab with the unbounded sentinel (`upto = 0`) appears at any
position — not only last — it absorbs all remaining units and the loop
stops there: the bill is identical to the one computed with every later
slab removed, all units are allocated, and at most `pre.length + 1`
records are produced, so the slabs after the sentinel contribute no record
and no charge. -/
theorem calculate_bill_unbounded_absorbs (units f d g : ℚ) (pre post : List Slab) (s : Slab)
    (h0 : 0 ≤ units) (hs : s.upto = 0) :
    calculate_bill units (pre ++ s :: post) f d g = calculate_bill units (pre ++ [s]) f d g ∧
    sumUnits (calculate_bill units (pre ++ s :: post) f d g).slab_details = units ∧
    (calculate_bill units (pre ++ s :: post) f d g).slab_details.length ≤ pre.length + 1 := by
  have happ := allocLoop_append_unbounded s hs post pre units 0
  have hsum := allocLoop_sum_unbounded s hs pre units 0 h0
  refine ⟨?_, ?_, ?_⟩
  · unfold calculate_bill
    rw [happ]
  · rw [calculate_bill_slab_details, happ, hsum]
  · rw [calculate_bill_slab_details, happ]
    have hlen := allocLoop_length (pre ++ [s]) units 0
    simpa using hlen

/-- C9 witness: an unbounded slab in second position absorbs the rest; the
trailing slab is never visited. -/
theorem calculate_bill_unbounded_absorbs_witness :
    (0:ℚ) ≤ 500 ∧ (Slab.mk 0 8).upto = 0 ∧
    (calculate_bill 500 ([⟨100, 3⟩] ++ ⟨0, 8⟩ :: [⟨300, 6⟩]) 50 5 5
        = calculate_bill 500 ([⟨100, 3⟩] ++ [⟨0, 8⟩]) 50 5 5 ∧
      sumUnits (calculate_bill 500 ([⟨100, 3⟩] ++ ⟨0, 8⟩ :: [⟨300, 6⟩]) 50 5 5).slab_details = 500 ∧
      (calculate_bill 500 ([⟨100, 3⟩] ++ ⟨0, 8⟩ :: [⟨300, 6⟩]) 50 5 5).slab_details.length
        ≤ [Slab.mk 100 3].length + 1) :=
  ⟨by norm_num, rfl,
    calculate_bill_unbounded_absorbs 500 50 5 5 [⟨100, 3⟩] [⟨300, 6⟩] ⟨0, 8⟩
      (by norm_num) rfl⟩

/-- C10: for `units = 0` and any non-empty slab list the `slab_details`
sequence contains exactly one record — the first slab with 0 units and 0
charge — because the first slab is processed before the `remaining <= 0`
short-circuit fires. -/
theorem calculate_bill_zero_units_single_record (f d g : ℚ) (s : Slab) (rest : List Slab) :
    (calculate_bill 0 (s :: rest) f d g).slab_details
      = [⟨slabRange 0 s.upto, 0, s.rate, 0⟩] := by
  rw [calculate_bill_slab_details, allocLoop_nonpos le_rfl]
